import Mathlib

/-!
Verification development for the workbook diff engine of the rota app
(`variant_diff_helpers.py`).

The engine is embedded shallowly:

* Cell values are the closed variant `CellVal` (absent, int, float, bool,
  text, date/time).  Python floats are idealised as rationals (`ℚ`); the
  `1e-9` tolerance of `_norm` is the exact rational `1/10^9`, and Python's
  `round` (half-to-even) is modelled by Mathlib's `round` (half-up) — the two
  differ only at exact half-integers, where the distance to the nearest
  integer is `1/2` and the rounded value is never used, so the branch taken
  by `_norm` is the same.
* A workbook is a list of named sheets; a sheet's grid is the list of its
  stored rows (openpyxl's `max_row`/`max_column` is the extent of stored
  cells, and reading a cell outside that extent yields `None`).
* `pandas` operations are modelled over lists: a `DataFrame` of difference
  records is a `List DiffRec`, `groupby(...).size()` (with its default
  `sort=True`) lists the distinct keys in ascending order with their counts,
  `sort_values(ascending=False)` is a stable descending sort on the count,
  and `head(n)` is `List.take`.
-/

/-! ## Python string helpers: `str.strip`, `str(int)`, `f"{x:.10g}"` -/

/-- The ASCII whitespace stripped by Python's `str.strip()` (Python also
strips some further Unicode spaces, which no value rendering here emits). -/
def isPySpace (c : Char) : Bool :=
  c = ' ' || c = '\t' || c = '\n' || c = '\r' || c = '\x0b' || c = '\x0c'

/-- `str.strip()` on the character list: drop leading and trailing whitespace. -/
def stripChars (l : List Char) : List Char :=
  ((l.dropWhile isPySpace).reverse.dropWhile isPySpace).reverse

/-- Python's `str.strip()`. -/
def pyStrip (s : String) : String :=
  ⟨stripChars s.data⟩

/-- Decimal digits of `n`, most significant first; `fuel`-structured so that
it is structural recursion (any `fuel > log10 n` gives the full rendering). -/
def natToDigitsAux : ℕ → ℕ → List Char
  | 0, _ => []
  | fuel + 1, n =>
    if n < 10 then [Nat.digitChar n]
    else natToDigitsAux fuel (n / 10) ++ [Nat.digitChar (n % 10)]

/-- The decimal rendering of a natural number (`str(n)` for `n ≥ 0`). -/
def natStrChars (n : ℕ) : List Char :=
  natToDigitsAux (n + 1) n

/-- `str(n)` for a natural number. -/
def natStr (n : ℕ) : String :=
  ⟨natStrChars n⟩

/-- The decimal rendering of an integer (Python's `str(i)`). -/
def intStrChars (i : ℤ) : List Char :=
  if i < 0 then '-' :: natStrChars i.natAbs else natStrChars i.natAbs

/-- Python's `str(i)` for an int. -/
def intStr (i : ℤ) : String :=
  ⟨intStrChars i⟩

/-- Least `k` (starting from the given one) with `a * 10 ^ k ≥ 1`; fuel-bounded
search used for the decimal exponent of a positive rational below `1`. -/
def ratSmallExpAux (a : ℚ) : ℕ → ℕ → ℕ
  | 0, k => k
  | fuel + 1, k => if 1 ≤ a * 10 ^ k then k else ratSmallExpAux a fuel (k + 1)

/-- The decimal exponent of a positive rational `a`: the unique `e` with
`10 ^ e ≤ a < 10 ^ (e + 1)`.  For `a ≥ 1` it is one less than the number of
decimal digits of `⌊a⌋`; for `a < 1` a bounded search (the denominator's
digit count bounds it) finds the least `k ≥ 1` with `a * 10 ^ k ≥ 1`. -/
def ratDecExp (a : ℚ) : ℤ :=
  if 1 ≤ a then ((natStrChars (⌊a⌋).toNat).length : ℤ) - 1
  else -(ratSmallExpAux a ((natStrChars a.den).length + 1) 1 : ℤ)

/-- Ten significant decimal digits of a positive rational: the pair
`(exponent, mantissa)` with `mantissa = round (a / 10 ^ (exponent - 9))`,
bumping the exponent when rounding overflows to an eleventh digit. -/
def ratSigDigits (a : ℚ) : ℤ × ℕ :=
  let e := ratDecExp a
  let m := round (a * (10 : ℚ) ^ (9 - e))
  if (10 : ℤ) ^ 10 ≤ m then (e + 1, 10 ^ 9) else (e, m.toNat)

/-- Remove the trailing `'0'` digits of a digit list (`%g` suppresses
trailing zeros). -/
def stripTrailingZeros (l : List Char) : List Char :=
  (l.reverse.dropWhile (fun c => c = '0')).reverse

/-- Fixed-point rendering of `%g` for decimal exponent `-4 ≤ e < 10`, given
the zero-stripped significant digits. -/
def fmtFixed (e : ℤ) (ds : List Char) : List Char :=
  if 0 ≤ e then
    if ds.length ≤ e.toNat + 1 then ds ++ List.replicate (e.toNat + 1 - ds.length) '0'
    else ds.take (e.toNat + 1) ++ '.' :: ds.drop (e.toNat + 1)
  else '0' :: '.' :: (List.replicate (-(e + 1)).toNat '0' ++ ds)

/-- The `e±XX` exponent suffix of `%g` scientific output (at least two
exponent digits, always signed). -/
def ratExpSuffix (e : ℤ) : List Char :=
  let ds := natStrChars e.natAbs
  'e' :: (if e < 0 then '-' else '+') :: (if ds.length < 2 then '0' :: ds else ds)

/-- Scientific rendering of `%g` for decimal exponent `e < -4` or `e ≥ 10`. -/
def fmtSci (e : ℤ) (ds : List Char) : List Char :=
  match ds with
  | [] => ['0']
  | d :: rest =>
    if rest.isEmpty then d :: ratExpSuffix e else d :: '.' :: (rest ++ ratExpSuffix e)

/-- Python's `f"{v:.10g}"` idealised over `ℚ`: up to ten significant digits,
trailing zeros suppressed, fixed-point for decimal exponents in `[-4, 10)`
and scientific outside that range. -/
def fmt10gChars (q : ℚ) : List Char :=
  if q = 0 then ['0']
  else
    let p := ratSigDigits |q|
    let ds0 := stripTrailingZeros (natStrChars p.2)
    let ds := if ds0.isEmpty then ['0'] else ds0
    let body := if -4 ≤ p.1 ∧ p.1 < 10 then fmtFixed p.1 ds else fmtSci p.1 ds
    if q < 0 then '-' :: body else body

/-- Python's `f"{v:.10g}"`. -/
def fmt10g (q : ℚ) : String :=
  ⟨fmt10gChars q⟩

/-! ## Cell values (spec §9: closed variant) and normalization (§4.2) -/

/-- A raw cell value as read by `openpyxl` with `data_only=True`: absent,
Python int, Python float (idealised as `ℚ`), bool, text, or a date/time
(year, month, day, hour, minute, second). -/
inductive CellVal where
  | vnone : CellVal
  | vint : ℤ → CellVal
  | vfloat : ℚ → CellVal
  | vbool : Bool → CellVal
  | vstr : String → CellVal
  | vdate : ℕ → ℕ → ℕ → ℕ → ℕ → ℕ → CellVal
deriving DecidableEq

/-- Two-digit zero-padded field of a date rendering. -/
def pad2 (n : ℕ) : List Char :=
  if n < 10 then '0' :: natStrChars n else natStrChars n

/-- Four-digit zero-padded year of a date rendering. -/
def pad4 (n : ℕ) : List Char :=
  List.replicate (4 - (natStrChars n).length) '0' ++ natStrChars n

/-- `str(datetime(...))`: `YYYY-MM-DD HH:MM:SS`. -/
def dateChars (y mo d h mi s : ℕ) : List Char :=
  pad4 y ++ '-' :: (pad2 mo ++ '-' :: (pad2 d ++ ' ' :: (pad2 h ++ ':' :: (pad2 mi ++ ':' :: pad2 s))))

/-- Python's `str(v)` for the cell values `_norm` can reach with it (ints,
bools, text, dates).  `vnone` and `vfloat` are matched away by the earlier
branches of `_norm` and never reach `str` there; their rendering is included
only for totality. -/
def pyStr : CellVal → String
  | .vnone => "None"
  | .vint i => intStr i
  | .vfloat q => fmt10g q
  | .vbool b => if b then "True" else "False"
  | .vstr s => s
  | .vdate y mo d h mi s => ⟨dateChars y mo d h mi s⟩

/-- `_norm` (variant_diff_helpers.py lines 24–32): `None` to the empty
string; a float within `1e-9` of its nearest integer to that integer's
decimal string; any other float through `%.10g`; anything else through
`str(v).strip()`. -/
def _norm : CellVal → String
  | .vnone => ""
  | .vfloat q =>
    if |q - (round q : ℚ)| < 1 / 1000000000 then intStr (round q) else fmt10g q
  | v => pyStrip (pyStr v)

/-- The normalization rule set exactly as spec §4.2 words it: absent maps to
the empty string; a numeric value within `1e-9` of its nearest integer maps
to the decimal string of that integer (for an int that is the int itself);
any other numeric value maps to the up-to-ten-significant-digit string; any
other value maps to its default string rendering stripped of leading and
trailing whitespace. -/
def normalize_spec : CellVal → String
  | .vnone => ""
  | .vint i => intStr i
  | .vfloat q =>
    if |q - (round q : ℚ)| < 1 / 1000000000 then intStr (round q) else fmt10g q
  | .vbool b => pyStrip (pyStr (.vbool b))
  | .vstr s => pyStrip s
  | .vdate y mo d h mi s => pyStrip (pyStr (.vdate y mo d h mi s))

/-! ## Workbooks (spec §3) -/

/-- A sheet: its name and the grid of stored rows.  openpyxl's `max_row` and
`max_column` are the extents of the stored cells, here the number of rows and
the width of the widest row; reading any cell outside the stored extent
yields `None`. -/
structure Sheet where
  name : String
  grid : List (List CellVal)
deriving DecidableEq

/-- A workbook: an ordered list of named sheets. -/
abbrev Workbook := List Sheet

/-- `wb.sheetnames`. -/
def sheetnames (wb : Workbook) : List String :=
  wb.map Sheet.name

/-- `wb[name]`: the first sheet with the given name (names are unique in a
real workbook); a default empty sheet when absent (`diff_sheet` only reads a
sheet after checking the name is present). -/
def getSheet (wb : Workbook) (s : String) : Sheet :=
  match wb.find? (fun ws => ws.name = s) with
  | some ws => ws
  | none => ⟨s, []⟩

/-- `ws.max_row`: the number of stored rows. -/
def sheetMaxRow (ws : Sheet) : ℕ :=
  ws.grid.length

/-- `ws.max_column`: the widest stored row. -/
def sheetMaxCol (ws : Sheet) : ℕ :=
  (ws.grid.map List.length).foldr max 0

/-- Python's `x or 1` on a row/column count: `0` (falsy) becomes `1`. -/
def orOne (n : ℕ) : ℕ :=
  if n = 0 then 1 else n

/-- `ws.cell(r, c).value` for 1-indexed `r, c`: the stored value, or `None`
outside the stored extent. -/
def cellVal (ws : Sheet) (r c : ℕ) : CellVal :=
  (ws.grid.getD (r - 1) []).getD (c - 1) CellVal.vnone

/-- openpyxl's `get_column_letter`, fuel-structured bijective base-26:
`1 ↦ "A"`, …, `26 ↦ "Z"`, `27 ↦ "AA"`. -/
def colLetterAux : ℕ → ℕ → List Char
  | 0, _ => []
  | _, 0 => []
  | fuel + 1, n => colLetterAux fuel ((n - 1) / 26) ++ [Char.ofNat ('A'.toNat + (n - 1) % 26)]

/-- `get_column_letter(n)`. -/
def get_column_letter (n : ℕ) : String :=
  ⟨colLetterAux n n⟩

/-- One difference record (spec §3): cell address label, 1-indexed row and
column, and the two normalized values. -/
structure DiffRec where
  cell : String
  row : ℕ
  col : ℕ
  a : String
  b : String
deriving DecidableEq

/-- The record-producing comparison at one coordinate (`diff_sheet` lines
55–58): `some` record exactly when the normalized values differ. -/
def cellDiff (wsA wsB : Sheet) (r c : ℕ) : Option DiffRec :=
  let va := _norm (cellVal wsA r c)
  let vb := _norm (cellVal wsB r c)
  if va ≠ vb then some ⟨get_column_letter c ++ natStr r, r, c, va, vb⟩ else none

/-- All differences of one row, columns `1..maxCol` in order (no cap). -/
def rowDiffs (wsA wsB : Sheet) (r maxCol : ℕ) : List DiffRec :=
  (List.range' 1 maxCol).filterMap (cellDiff wsA wsB r)

/-- The full row-major difference list over `rows 1..maxRow × cols 1..maxCol`
(the scan of `diff_sheet` with no cap): spec §3's difference set, in its
observable order. -/
def allDiffs (wsA wsB : Sheet) (maxRow maxCol : ℕ) : List DiffRec :=
  (List.range' 1 maxRow).flatMap (fun r => rowDiffs wsA wsB r maxCol)

/-- The inner `for c` loop of `diff_sheet` (lines 54–60): append a record
when the normalized values differ, and break out of the loop as soon as the
accumulated count reaches `max_changes` — the check sits after the append. -/
def scanRow (wsA wsB : Sheet) (r : ℕ) (cap : ℤ) : List ℕ → List DiffRec → List DiffRec
  | [], acc => acc
  | c :: cs, acc =>
    match cellDiff wsA wsB r c with
    | none => scanRow wsA wsB r cap cs acc
    | some d =>
      if cap ≤ ((acc ++ [d]).length : ℤ) then acc ++ [d]
      else scanRow wsA wsB r cap cs (acc ++ [d])

/-- The outer `for r` loop of `diff_sheet` (lines 53–62): scan each row, and
after each row break when the accumulated count reaches `max_changes`. -/
def scanRows (wsA wsB : Sheet) (maxCol : ℕ) (cap : ℤ) : List ℕ → List DiffRec → List DiffRec
  | [], acc => acc
  | r :: rs, acc =>
    if cap ≤ ((scanRow wsA wsB r cap (List.range' 1 maxCol) acc).length : ℤ)
    then scanRow wsA wsB r cap (List.range' 1 maxCol) acc
    else scanRows wsA wsB maxCol cap rs (scanRow wsA wsB r cap (List.range' 1 maxCol) acc)

/-- The scan row bound of `diff_sheet` line 49: `max(ws_a.max_row or 1,
ws_b.max_row or 1)`. -/
def scanMaxRow (A B : Workbook) (s : String) : ℕ :=
  max (orOne (sheetMaxRow (getSheet A s))) (orOne (sheetMaxRow (getSheet B s)))

/-- The scan column bound of `diff_sheet` line 50. -/
def scanMaxCol (A B : Workbook) (s : String) : ℕ :=
  max (orOne (sheetMaxCol (getSheet A s))) (orOne (sheetMaxCol (getSheet B s)))

/-- `diff_sheet` (lines 39–64): empty result when the sheet is missing from
either workbook, otherwise the capped row-major scan.  The resulting list is
the rows of the returned `DataFrame`. -/
def diff_sheet (A B : Workbook) (s : String) (maxChanges : ℤ) : List DiffRec :=
  if s ∉ sheetnames A ∨ s ∉ sheetnames B then []
  else scanRows (getSheet A s) (getSheet B s) (scanMaxCol A B s) maxChanges
    (List.range' 1 (scanMaxRow A B s)) []

/-- The uncapped difference list of a sheet: what spec §3 calls the
difference set, in row-major order, with the same missing-sheet guard as
`diff_sheet`. -/
def diff_sheet_full (A B : Workbook) (s : String) : List DiffRec :=
  if s ∉ sheetnames A ∨ s ∉ sheetnames B then []
  else allDiffs (getSheet A s) (getSheet B s) (scanMaxRow A B s) (scanMaxCol A B s)

/-- Swap the two normalized-value payloads of a record (spec §8 property 4). -/
def swapRec (d : DiffRec) : DiffRec :=
  ⟨d.cell, d.row, d.col, d.b, d.a⟩

/-- `common_sheets` (lines 34–37): the names of `A`'s sheets, in `A`'s order,
that also name a sheet of `B`. -/
def common_sheets (A B : Workbook) : List String :=
  (sheetnames A).filter (fun s => (sheetnames B).contains s)

/-! ## Summary and hotspot ranking (`diff_summary`, `top_changed_rows`,
`top_changed_cols`) -/

/-- The summary mapping of `diff_summary`. -/
structure Summary where
  changed_cells : ℕ
  changed_rows : ℕ
  changed_cols : ℕ
deriving DecidableEq

/-- `diff_summary` (lines 66–73): total record count and the distinct `Row`
and `Col` counts (`nunique`), all zero on an empty frame. -/
def diff_summary (diffs : List DiffRec) : Summary :=
  if diffs.isEmpty then ⟨0, 0, 0⟩
  else ⟨diffs.length, (diffs.map DiffRec.row).dedup.length, (diffs.map DiffRec.col).dedup.length⟩

/-- The distinct keys of a list in ascending order: pandas `groupby` with its
default `sort=True` lists one group per distinct key, keys ascending. -/
def sortedUniqueKeys (ks : List ℕ) : List ℕ :=
  (List.range (ks.foldr max 0 + 1)).filter (fun k => ks.contains k)

/-- `groupby(key).size()`: one `(key, count)` pair per distinct key, keys
ascending. -/
def groupSizes (ks : List ℕ) : List (ℕ × ℕ) :=
  (sortedUniqueKeys ks).map (fun k => (k, ks.count k))

/-- One step of the stable descending insertion sort modelling
`sort_values("ChangedCells", ascending=False)`: walk past strictly larger
counts, insert before the first count `≤` the new one. -/
def insertCountDesc (x : ℕ × ℕ) : List (ℕ × ℕ) → List (ℕ × ℕ)
  | [] => [x]
  | y :: ys => if x.2 < y.2 then y :: insertCountDesc x ys else x :: y :: ys

/-- Stable sort by count descending (`sort_values("ChangedCells",
ascending=False)`; ties keep their incoming order). -/
def sortCountDesc : List (ℕ × ℕ) → List (ℕ × ℕ)
  | [] => []
  | x :: xs => insertCountDesc x (sortCountDesc xs)

/-- `top_changed_rows` (lines 75–84): group by `Row`, count, sort by count
descending, take the first `top_n` as `(Row, ChangedCells)` pairs. -/
def top_changed_rows (diffs : List DiffRec) (topN : ℕ) : List (ℕ × ℕ) :=
  if diffs.isEmpty then []
  else (sortCountDesc (groupSizes (diffs.map DiffRec.row))).take topN

/-- `top_changed_cols` (lines 86–95): the same over `Col`. -/
def top_changed_cols (diffs : List DiffRec) (topN : ℕ) : List (ℕ × ℕ) :=
  if diffs.isEmpty then []
  else (sortCountDesc (groupSizes (diffs.map DiffRec.col))).take topN

/-! ## Helper lemmas: whitespace-free renderings and `strip` -/

theorem not_space_of_digit {c : Char} (h : c.isDigit = true) : isPySpace c = false := by
  cases hps : isPySpace c with
  | false => rfl
  | true =>
    exfalso
    simp only [isPySpace, Bool.or_eq_true, decide_eq_true_eq] at hps
    rcases hps with ((((h1 | h1) | h1) | h1) | h1) | h1 <;> subst h1 <;> simp at h

theorem digitChar_isDigit {n : ℕ} (h : n < 10) : (Nat.digitChar n).isDigit = true := by
  interval_cases n <;> decide

theorem natToDigitsAux_digits :
    ∀ fuel n : ℕ, ∀ c ∈ natToDigitsAux fuel n, c.isDigit = true := by
  intro fuel
  induction fuel with
  | zero => intro n c hc; simp [natToDigitsAux] at hc
  | succ fuel ih =>
    intro n c hc
    unfold natToDigitsAux at hc
    split at hc
    · next h =>
      rcases List.mem_singleton.mp hc with rfl
      exact digitChar_isDigit h
    · next h =>
      rcases List.mem_append.mp hc with h1 | h1
      · exact ih _ c h1
      · rcases List.mem_singleton.mp h1 with rfl
        exact digitChar_isDigit (Nat.mod_lt _ (by omega))

theorem natStrChars_digits (n : ℕ) : ∀ c ∈ natStrChars n, c.isDigit = true :=
  natToDigitsAux_digits (n + 1) n

theorem natStrChars_nospace (n : ℕ) : ∀ c ∈ natStrChars n, isPySpace c = false :=
  fun c hc => not_space_of_digit (natStrChars_digits n c hc)

theorem intStrChars_nospace (i : ℤ) : ∀ c ∈ intStrChars i, isPySpace c = false := by
  intro c hc
  unfold intStrChars at hc
  split at hc
  · rcases List.mem_cons.mp hc with rfl | h1
    · rfl
    · exact natStrChars_nospace _ c h1
  · exact natStrChars_nospace _ c hc

theorem mem_stripTrailingZeros {c : Char} {l : List Char}
    (hc : c ∈ stripTrailingZeros l) : c ∈ l := by
  unfold stripTrailingZeros at hc
  rw [List.mem_reverse] at hc
  exact List.mem_reverse.mp ((List.dropWhile_sublist _).mem hc)

theorem fmtFixed_nospace {e : ℤ} {ds : List Char}
    (hds : ∀ c ∈ ds, isPySpace c = false) :
    ∀ c ∈ fmtFixed e ds, isPySpace c = false := by
  intro c hc
  unfold fmtFixed at hc
  split at hc
  · split at hc
    · rcases List.mem_append.mp hc with h1 | h1
      · exact hds c h1
      · rcases List.eq_of_mem_replicate h1 with rfl; rfl
    · rcases List.mem_append.mp hc with h1 | h1
      · exact hds c (List.mem_of_mem_take h1)
      · rcases List.mem_cons.mp h1 with rfl | h2
        · rfl
        · exact hds c ((List.drop_sublist _ _).mem h2)
  · rcases List.mem_cons.mp hc with rfl | h1
    · rfl
    · rcases List.mem_cons.mp h1 with rfl | h2
      · rfl
      · rcases List.mem_append.mp h2 with h3 | h3
        · rcases List.eq_of_mem_replicate h3 with rfl; rfl
        · exact hds c h3

theorem ratExpSuffix_nospace (e : ℤ) : ∀ c ∈ ratExpSuffix e, isPySpace c = false := by
  intro c hc
  unfold ratExpSuffix at hc
  rcases List.mem_cons.mp hc with rfl | h1
  · rfl
  · rcases List.mem_cons.mp h1 with rfl | h2
    · split <;> rfl
    · split at h2
      · rcases List.mem_cons.mp h2 with rfl | h3
        · rfl
        · exact natStrChars_nospace _ c h3
      · exact natStrChars_nospace _ c h2

theorem fmtSci_nospace {e : ℤ} {ds : List Char}
    (hds : ∀ c ∈ ds, isPySpace c = false) :
    ∀ c ∈ fmtSci e ds, isPySpace c = false := by
  intro c hc
  cases ds with
  | nil =>
    simp only [fmtSci] at hc
    rcases List.mem_singleton.mp hc with rfl; rfl
  | cons d rest =>
    simp only [fmtSci] at hc
    have hd : isPySpace d = false := hds d (List.mem_cons_self d rest)
    have hrest : ∀ c ∈ rest, isPySpace c = false :=
      fun c h => hds c (List.mem_cons_of_mem d h)
    split at hc
    · rcases List.mem_cons.mp hc with rfl | h1
      · exact hd
      · exact ratExpSuffix_nospace e c h1
    · rcases List.mem_cons.mp hc with rfl | h1
      · exact hd
      · rcases List.mem_cons.mp h1 with rfl | h2
        · rfl
        · rcases List.mem_append.mp h2 with h3 | h3
          · exact hrest c h3
          · exact ratExpSuffix_nospace e c h3

theorem fmt10gChars_nospace (q : ℚ) : ∀ c ∈ fmt10gChars q, isPySpace c = false := by
  intro c hc
  unfold fmt10gChars at hc
  split at hc
  · rcases List.mem_singleton.mp hc with rfl; rfl
  · set ds0 := stripTrailingZeros (natStrChars (ratSigDigits |q|).2) with hds0
    have hds : ∀ c ∈ (if ds0.isEmpty then ['0'] else ds0), isPySpace c = false := by
      intro c hc
      split at hc
      · rcases List.mem_singleton.mp hc with rfl; rfl
      · exact natStrChars_nospace _ c (mem_stripTrailingZeros hc)
    have hbody : ∀ c ∈ (if -4 ≤ (ratSigDigits |q|).1 ∧ (ratSigDigits |q|).1 < 10 then
        fmtFixed (ratSigDigits |q|).1 (if ds0.isEmpty then ['0'] else ds0)
        else fmtSci (ratSigDigits |q|).1 (if ds0.isEmpty then ['0'] else ds0)),
        isPySpace c = false := by
      intro c hc
      split at hc
      · exact fmtFixed_nospace hds c hc
      · exact fmtSci_nospace hds c hc
    split at hc
    · rcases List.mem_cons.mp hc with rfl | h1
      · rfl
      · exact hbody c h1
    · exact hbody c hc

theorem dropWhile_eq_self_of_head {p : Char → Bool} {l : List Char}
    (h : ∀ c, l.head? = some c → p c = false) : l.dropWhile p = l := by
  cases l with
  | nil => rfl
  | cons a t => simp [List.dropWhile_cons, h a rfl]

theorem head_dropWhile_false (p : Char → Bool) :
    ∀ (l : List Char) (c : Char), (l.dropWhile p).head? = some c → p c = false := by
  intro l
  induction l with
  | nil => intro c hc; simp at hc
  | cons a t ih =>
    intro c hc
    by_cases hpa : p a
    · rw [List.dropWhile_cons_of_pos hpa] at hc
      exact ih c hc
    · rw [List.dropWhile_cons_of_neg hpa] at hc
      rcases Option.some.inj hc with rfl
      exact Bool.eq_false_iff.mpr hpa

theorem getLast?_dropWhile (p : Char → Bool) (l : List Char)
    (h : l.dropWhile p ≠ []) : (l.dropWhile p).getLast? = l.getLast? := by
  obtain ⟨t, ht⟩ := List.dropWhile_suffix (l := l) p
  cases hx : (l.dropWhile p).getLast? with
  | none => exact absurd (List.getLast?_eq_none_iff.mp hx) h
  | some v =>
    rw [← ht, List.getLast?_append, hx]
    rfl

theorem stripChars_eq_self {l : List Char}
    (h1 : ∀ c, l.head? = some c → isPySpace c = false)
    (h2 : ∀ c, l.getLast? = some c → isPySpace c = false) : stripChars l = l := by
  unfold stripChars
  rw [dropWhile_eq_self_of_head h1]
  rw [dropWhile_eq_self_of_head (fun c hc => h2 c (by rwa [List.head?_reverse] at hc))]
  exact List.reverse_reverse l

theorem stripChars_eq_self_of_forall {l : List Char}
    (h : ∀ c ∈ l, isPySpace c = false) : stripChars l = l :=
  stripChars_eq_self
    (fun c hc => h c (List.mem_of_mem_head? (by simp [hc])))
    (fun c hc => h c (List.mem_of_mem_getLast? (by simp [hc])))

theorem stripChars_getLast (l : List Char) :
    ∀ c, (stripChars l).getLast? = some c → isPySpace c = false := by
  intro c hc
  unfold stripChars at hc
  rw [List.getLast?_reverse] at hc
  exact head_dropWhile_false isPySpace _ c hc

theorem stripChars_head (l : List Char) :
    ∀ c, (stripChars l).head? = some c → isPySpace c = false := by
  intro c hc
  unfold stripChars at hc
  rw [List.head?_reverse] at hc
  have hne : (l.dropWhile isPySpace).reverse.dropWhile isPySpace ≠ [] := by
    intro hemp
    rw [hemp] at hc
    simp at hc
  rw [getLast?_dropWhile isPySpace _ hne, List.getLast?_reverse] at hc
  exact head_dropWhile_false isPySpace _ c hc

theorem stripChars_idem (l : List Char) : stripChars (stripChars l) = stripChars l :=
  stripChars_eq_self (stripChars_head l) (stripChars_getLast l)

theorem pyStrip_idem (s : String) : pyStrip (pyStrip s) = pyStrip s :=
  congrArg String.mk (stripChars_idem s.data)

theorem intStr_stripped (i : ℤ) : pyStrip (intStr i) = intStr i :=
  congrArg String.mk (stripChars_eq_self_of_forall (intStrChars_nospace i))

theorem fmt10g_stripped (q : ℚ) : pyStrip (fmt10g q) = fmt10g q :=
  congrArg String.mk (stripChars_eq_self_of_forall (fmt10gChars_nospace q))

/-- Every output of `_norm` is already stripped: stripping it again changes
nothing. -/
theorem norm_stripped (v : CellVal) : pyStrip (_norm v) = _norm v := by
  cases v with
  | vnone => rfl
  | vfloat q =>
    simp only [_norm]
    split
    · exact intStr_stripped _
    · exact fmt10g_stripped _
  | vint i => exact pyStrip_idem _
  | vbool b => exact pyStrip_idem _
  | vstr s => exact pyStrip_idem _
  | vdate y mo d h mi s => exact pyStrip_idem _

/-! ## Helper lemmas: the capped scan against the uncapped difference list -/

theorem cellDiff_some {wsA wsB : Sheet} {r c : ℕ} {d : DiffRec}
    (h : cellDiff wsA wsB r c = some d) :
    d.row = r ∧ d.col = c ∧ _norm (cellVal wsA r c) ≠ _norm (cellVal wsB r c) := by
  simp only [cellDiff] at h
  split at h
  · next hne =>
    obtain rfl := Option.some.inj h
    exact ⟨rfl, rfl, hne⟩
  · exact absurd h (by simp)

theorem cellDiff_of_ne {wsA wsB : Sheet} {r c : ℕ}
    (h : _norm (cellVal wsA r c) ≠ _norm (cellVal wsB r c)) :
    cellDiff wsA wsB r c
      = some ⟨get_column_letter c ++ natStr r, r, c, _norm (cellVal wsA r c), _norm (cellVal wsB r c)⟩ := by
  unfold cellDiff
  simp [h]

theorem scanRow_take (wsA wsB : Sheet) (r : ℕ) (cap : ℤ) :
    ∀ (cs : List ℕ) (acc : List DiffRec), (acc.length : ℤ) < cap →
      scanRow wsA wsB r cap cs acc
        = (acc ++ cs.filterMap (cellDiff wsA wsB r)).take cap.toNat := by
  intro cs
  induction cs with
  | nil =>
    intro acc hacc
    simp only [scanRow, List.filterMap_nil, List.append_nil]
    rw [List.take_of_length_le (by omega)]
  | cons c cs ih =>
    intro acc hacc
    rcases hcd : cellDiff wsA wsB r c with _ | d
    · simp only [scanRow, hcd]
      rw [ih acc hacc, List.filterMap_cons_none hcd]
    · simp only [scanRow, hcd]
      by_cases hcap : cap ≤ ((acc ++ [d]).length : ℤ)
      · rw [if_pos hcap, List.filterMap_cons_some hcd]
        have hlen : (acc ++ [d]).length = cap.toNat := by
          simp only [List.length_append, List.length_singleton] at hcap ⊢
          omega
        have hsplit : acc ++ d :: cs.filterMap (cellDiff wsA wsB r)
            = (acc ++ [d]) ++ cs.filterMap (cellDiff wsA wsB r) := by simp
        rw [hsplit, ← hlen, List.take_left]
      · rw [if_neg hcap, List.filterMap_cons_some hcd]
        push_neg at hcap
        rw [ih _ hcap]
        simp

theorem scanRows_take (wsA wsB : Sheet) (mc : ℕ) (cap : ℤ) :
    ∀ (rs : List ℕ) (acc : List DiffRec), (acc.length : ℤ) < cap →
      scanRows wsA wsB mc cap rs acc
        = (acc ++ rs.flatMap (fun r => rowDiffs wsA wsB r mc)).take cap.toNat := by
  intro rs
  induction rs with
  | nil =>
    intro acc hacc
    simp only [scanRows, List.flatMap_nil, List.append_nil]
    rw [List.take_of_length_le (by omega)]
  | cons r rs ih =>
    intro acc hacc
    have hrow : scanRow wsA wsB r cap (List.range' 1 mc) acc
        = (acc ++ rowDiffs wsA wsB r mc).take cap.toNat :=
      scanRow_take wsA wsB r cap (List.range' 1 mc) acc hacc
    simp only [scanRows, hrow]
    by_cases hcap : cap ≤ (((acc ++ rowDiffs wsA wsB r mc).take cap.toNat).length : ℤ)
    · rw [if_pos hcap]
      have hge : cap.toNat ≤ (acc ++ rowDiffs wsA wsB r mc).length := by
        rw [List.length_take] at hcap
        omega
      rw [List.flatMap_cons, ← List.append_assoc, List.take_append_of_le_length hge]
    · rw [if_neg hcap]
      push_neg at hcap
      rw [List.length_take] at hcap
      have heq : (acc ++ rowDiffs wsA wsB r mc).take cap.toNat
          = acc ++ rowDiffs wsA wsB r mc := List.take_of_length_le (by omega)
      rw [heq]
      rw [ih _ (by omega)]
      simp [List.flatMap_cons]

theorem diff_sheet_eq_take (A B : Workbook) (s : String) (cap : ℤ) (hcap : 1 ≤ cap) :
    diff_sheet A B s cap = (diff_sheet_full A B s).take cap.toNat := by
  unfold diff_sheet diff_sheet_full
  split
  · simp
  · rw [scanRows_take _ _ _ _ _ [] (by simp; omega)]
    rfl

theorem mem_allDiffs_iff (wsA wsB : Sheet) (mr mc : ℕ) (r c : ℕ)
    (hr1 : 1 ≤ r) (hr2 : r ≤ mr) (hc1 : 1 ≤ c) (hc2 : c ≤ mc) :
    (∃ d ∈ allDiffs wsA wsB mr mc, d.row = r ∧ d.col = c)
      ↔ _norm (cellVal wsA r c) ≠ _norm (cellVal wsB r c) := by
  constructor
  · rintro ⟨d, hd, hrow, hcol⟩
    rw [allDiffs, List.mem_flatMap] at hd
    obtain ⟨r', _, hd⟩ := hd
    rw [rowDiffs, List.mem_filterMap] at hd
    obtain ⟨c', _, hcd⟩ := hd
    obtain ⟨h1, h2, h3⟩ := cellDiff_some hcd
    rw [hrow] at h1
    rw [hcol] at h2
    rw [← h1, ← h2] at h3
    exact h3
  · intro hne
    refine ⟨⟨get_column_letter c ++ natStr r, r, c,
      _norm (cellVal wsA r c), _norm (cellVal wsB r c)⟩, ?_, rfl, rfl⟩
    · rw [allDiffs, List.mem_flatMap]
      refine ⟨r, ?_, ?_⟩
      · rw [List.mem_range']
        exact ⟨r - 1, by omega, by omega⟩
      · rw [rowDiffs, List.mem_filterMap]
        refine ⟨c, ?_, cellDiff_of_ne hne⟩
        rw [List.mem_range']
        exact ⟨c - 1, by omega, by omega⟩

theorem cellDiff_swap (wsA wsB : Sheet) (r c : ℕ) :
    cellDiff wsB wsA r c = (cellDiff wsA wsB r c).map swapRec := by
  simp only [cellDiff]
  by_cases h : _norm (cellVal wsA r c) = _norm (cellVal wsB r c)
  · simp [h]
  · simp [h, Ne.symm h, swapRec]

theorem scanRow_swap (wsA wsB : Sheet) (r : ℕ) (cap : ℤ) :
    ∀ (cs : List ℕ) (acc : List DiffRec),
      scanRow wsB wsA r cap cs (acc.map swapRec)
        = (scanRow wsA wsB r cap cs acc).map swapRec := by
  intro cs
  induction cs with
  | nil => intro acc; simp [scanRow]
  | cons c cs ih =>
    intro acc
    rcases hcd : cellDiff wsA wsB r c with _ | d
    · simp only [scanRow, cellDiff_swap wsA wsB r c, hcd, Option.map_none']
      exact ih acc
    · simp only [scanRow, cellDiff_swap wsA wsB r c, hcd, Option.map_some']
      have hmap : acc.map swapRec ++ [swapRec d] = (acc ++ [d]).map swapRec := by simp
      rw [hmap, List.length_map]
      split
      · rfl
      · exact ih (acc ++ [d])

theorem scanRows_swap (wsA wsB : Sheet) (mc : ℕ) (cap : ℤ) :
    ∀ (rs : List ℕ) (acc : List DiffRec),
      scanRows wsB wsA mc cap rs (acc.map swapRec)
        = (scanRows wsA wsB mc cap rs acc).map swapRec := by
  intro rs
  induction rs with
  | nil => intro acc; simp [scanRows]
  | cons r rs ih =>
    intro acc
    simp only [scanRows, scanRow_swap wsA wsB r cap (List.range' 1 mc) acc, List.length_map]
    split
    · rfl
    · exact ih _

theorem orOne_pos (n : ℕ) : 1 ≤ orOne n := by
  unfold orOne
  split <;> omega

theorem scanMaxRow_pos (A B : Workbook) (s : String) : 1 ≤ scanMaxRow A B s :=
  le_trans (orOne_pos _) (le_max_left _ _)

theorem scanRow_nonpos (wsA wsB : Sheet) (r : ℕ) (cap : ℤ) (hcap : cap ≤ 0) :
    ∀ cs : List ℕ,
      scanRow wsA wsB r cap cs [] = (cs.filterMap (cellDiff wsA wsB r)).take 1 := by
  intro cs
  induction cs with
  | nil => rfl
  | cons c cs ih =>
    rcases hcd : cellDiff wsA wsB r c with _ | d
    · simp only [scanRow, hcd]
      rw [ih, List.filterMap_cons_none hcd]
    · simp only [scanRow, hcd]
      rw [if_pos (by simp; omega), List.filterMap_cons_some hcd]
      simp

theorem scanRows_nonpos (wsA wsB : Sheet) (mc : ℕ) (cap : ℤ) (hcap : cap ≤ 0)
    (r : ℕ) (rs : List ℕ) :
    scanRows wsA wsB mc cap (r :: rs) [] = (rowDiffs wsA wsB r mc).take 1 := by
  simp only [scanRows]
  rw [scanRow_nonpos wsA wsB r cap hcap (List.range' 1 mc)]
  rw [if_pos (le_trans hcap (Int.natCast_nonneg _))]
  rfl

theorem diff_sheet_no_trunc (A B : Workbook) (s : String) (cap : ℤ)
    (hlen : ((diff_sheet A B s cap).length : ℤ) < cap) :
    diff_sheet A B s cap = diff_sheet_full A B s := by
  have hcap : 1 ≤ cap := by omega
  rw [diff_sheet_eq_take A B s cap hcap] at hlen ⊢
  rw [List.length_take] at hlen
  exact List.take_of_length_le (by omega)

theorem diff_sheet_length_le_aux (A B : Workbook) (s : String) (cap : ℤ) :
    ((diff_sheet A B s cap).length : ℤ) ≤ max cap 1 := by
  rcases le_or_lt cap 0 with hc | hc
  · unfold diff_sheet
    split
    · simp
    · obtain ⟨m, hm⟩ : ∃ m, scanMaxRow A B s = m + 1 :=
        ⟨scanMaxRow A B s - 1, by have := scanMaxRow_pos A B s; omega⟩
      rw [hm, List.range'_succ, scanRows_nonpos _ _ _ _ hc]
      have h1 : ((rowDiffs (getSheet A s) (getSheet B s) 1 (scanMaxCol A B s)).take 1).length ≤ 1 := by
        rw [List.length_take]
        omega
      have h2 : (1 : ℤ) ≤ max cap 1 := le_max_right _ _
      omega
  · rw [diff_sheet_eq_take A B s cap (by omega), List.length_take]
    have h1 : min cap.toNat (diff_sheet_full A B s).length ≤ cap.toNat := min_le_left _ _
    have h2 : cap ≤ max cap 1 := le_max_left _ _
    omega

/-! ## Helper lemmas: grouping and ranking -/

theorem foldr_max_le {ks : List ℕ} : ∀ k ∈ ks, k ≤ ks.foldr max 0 := by
  induction ks with
  | nil => simp
  | cons a t ih =>
    intro k hk
    rcases List.mem_cons.mp hk with rfl | h
    · exact le_max_left _ _
    · exact le_trans (ih k h) (le_max_right _ _)

theorem mem_sortedUniqueKeys {ks : List ℕ} {k : ℕ} :
    k ∈ sortedUniqueKeys ks ↔ k ∈ ks := by
  unfold sortedUniqueKeys
  rw [List.mem_filter, List.mem_range]
  constructor
  · rintro ⟨_, h⟩
    exact List.elem_iff.mp h
  · intro h
    exact ⟨Nat.lt_succ_of_le (foldr_max_le k h), List.elem_iff.mpr h⟩

theorem sortedUniqueKeys_nodup (ks : List ℕ) : (sortedUniqueKeys ks).Nodup :=
  (List.nodup_range _).filter _

theorem sortedUniqueKeys_sorted (ks : List ℕ) :
    (sortedUniqueKeys ks).Pairwise (· < ·) :=
  (List.pairwise_lt_range _).filter _

/-- The observable ordering of a ranked hotspot table: count strictly
descending, and ascending key among equal counts. -/
def countKeyOrder (p q : ℕ × ℕ) : Prop :=
  q.2 < p.2 ∨ (p.2 = q.2 ∧ p.1 < q.1)

theorem insertCountDesc_perm (x : ℕ × ℕ) (l : List (ℕ × ℕ)) :
    (insertCountDesc x l).Perm (x :: l) := by
  induction l with
  | nil => exact List.Perm.refl _
  | cons y ys ih =>
    unfold insertCountDesc
    split
    · exact (ih.cons y).trans (List.Perm.swap x y ys)
    · exact List.Perm.refl _

theorem sortCountDesc_perm (l : List (ℕ × ℕ)) : (sortCountDesc l).Perm l := by
  induction l with
  | nil => exact List.Perm.refl _
  | cons x xs ih =>
    unfold sortCountDesc
    exact (insertCountDesc_perm x (sortCountDesc xs)).trans (ih.cons x)

theorem insertCountDesc_lex {x : ℕ × ℕ} {l : List (ℕ × ℕ)}
    (hl : l.Pairwise countKeyOrder) (hx : ∀ y ∈ l, x.1 < y.1) :
    (insertCountDesc x l).Pairwise countKeyOrder := by
  induction l with
  | nil => simp [insertCountDesc]
  | cons y ys ih =>
    rcases List.pairwise_cons.mp hl with ⟨hy, hys⟩
    unfold insertCountDesc
    split
    · next hlt =>
      refine List.pairwise_cons.mpr ⟨?_, ih hys (fun z hz => hx z (List.mem_cons_of_mem y hz))⟩
      intro z hz
      rcases List.mem_cons.mp ((insertCountDesc_perm x ys).mem_iff.mp hz) with rfl | hz'
      · exact Or.inl hlt
      · exact hy z hz'
    · next hge =>
      push_neg at hge
      refine List.pairwise_cons.mpr ⟨?_, hl⟩
      intro z hz
      rcases List.mem_cons.mp hz with rfl | hz'
      · rcases lt_or_eq_of_le hge with h | h
        · exact Or.inl h
        · exact Or.inr ⟨h.symm, hx z (List.mem_cons_self _ _)⟩
      · rcases hy z hz' with h | ⟨h1, h2⟩
        · exact Or.inl (lt_of_lt_of_le h hge)
        · rcases lt_or_eq_of_le hge with h | h
          · exact Or.inl (by omega)
          · exact Or.inr ⟨by omega, hx z (List.mem_cons_of_mem y hz')⟩

theorem sortCountDesc_lex {l : List (ℕ × ℕ)}
    (h : l.Pairwise (fun p q => p.1 < q.1)) :
    (sortCountDesc l).Pairwise countKeyOrder := by
  induction l with
  | nil => simp [sortCountDesc]
  | cons x xs ih =>
    rcases List.pairwise_cons.mp h with ⟨hx, hxs⟩
    unfold sortCountDesc
    exact insertCountDesc_lex (ih hxs)
      (fun y hy => hx y ((sortCountDesc_perm xs).mem_iff.mp hy))

theorem groupSizes_keys_sorted (ks : List ℕ) :
    (groupSizes ks).Pairwise (fun p q => p.1 < q.1) := by
  unfold groupSizes
  rw [List.pairwise_map]
  exact sortedUniqueKeys_sorted ks

theorem sum_groupSizes (ks : List ℕ) :
    ((groupSizes ks).map (fun p => p.2)).sum = ks.length := by
  unfold groupSizes
  rw [List.map_map]
  have hperm : (sortedUniqueKeys ks).Perm ks.dedup := by
    rw [List.perm_ext_iff_of_nodup (sortedUniqueKeys_nodup ks) (List.nodup_dedup ks)]
    intro a
    rw [mem_sortedUniqueKeys, List.mem_dedup]
  have hmap : ((fun p : ℕ × ℕ => p.2) ∘ fun k => (k, ks.count k)) = fun k => ks.count k := rfl
  rw [hmap]
  calc ((sortedUniqueKeys ks).map fun k => ks.count k).sum
      = (ks.dedup.map fun k => ks.count k).sum := (hperm.map _).sum_eq
    _ = ks.length := List.sum_map_count_dedup_eq_length ks

theorem sublist_sum_le {l₁ l₂ : List ℕ} (h : l₁.Sublist l₂) : l₁.sum ≤ l₂.sum := by
  induction h with
  | slnil => exact le_refl _
  | cons a _ ih => simp only [List.sum_cons]; omega
  | cons₂ a _ ih => simp only [List.sum_cons]; omega

theorem scanMaxRow_comm (A B : Workbook) (s : String) :
    scanMaxRow B A s = scanMaxRow A B s :=
  max_comm _ _

theorem scanMaxCol_comm (A B : Workbook) (s : String) :
    scanMaxCol B A s = scanMaxCol A B s :=
  max_comm _ _

theorem ranked_take_spec (ks : List ℕ) (n : ℕ) :
    ((sortCountDesc (groupSizes ks)).take n).length ≤ n ∧
    ((sortCountDesc (groupSizes ks)).take n).Pairwise countKeyOrder ∧
    (((sortCountDesc (groupSizes ks)).take n).map (fun p => p.2)).sum ≤ ks.length := by
  refine ⟨?_, ?_, ?_⟩
  · rw [List.length_take]
    exact min_le_left _ _
  · exact List.Pairwise.sublist (List.take_sublist n _)
      (sortCountDesc_lex (groupSizes_keys_sorted ks))
  · calc (((sortCountDesc (groupSizes ks)).take n).map (fun p => p.2)).sum
        ≤ ((sortCountDesc (groupSizes ks)).map (fun p => p.2)).sum :=
          sublist_sum_le ((List.take_sublist n _).map _)
      _ = ((groupSizes ks).map (fun p => p.2)).sum :=
          ((sortCountDesc_perm (groupSizes ks)).map _).sum_eq
      _ = ks.length := sum_groupSizes ks

theorem top_changed_rows_spec (diffs : List DiffRec) (n : ℕ) :
    (top_changed_rows diffs n).length ≤ n ∧
    (top_changed_rows diffs n).Pairwise countKeyOrder ∧
    (diffs = [] → top_changed_rows diffs n = []) ∧
    ((top_changed_rows diffs n).map (fun p => p.2)).sum ≤ diffs.length := by
  by_cases h : diffs.isEmpty
  · obtain rfl := List.isEmpty_iff.mp h
    simp [top_changed_rows]
  · unfold top_changed_rows
    rw [if_neg h]
    obtain ⟨h1, h2, h3⟩ := ranked_take_spec (diffs.map DiffRec.row) n
    refine ⟨h1, h2, ?_, ?_⟩
    · intro hemp
      exact absurd (List.isEmpty_iff.mpr hemp) h
    · rwa [List.length_map] at h3

theorem top_changed_cols_spec (diffs : List DiffRec) (n : ℕ) :
    (top_changed_cols diffs n).length ≤ n ∧
    (top_changed_cols diffs n).Pairwise countKeyOrder ∧
    (diffs = [] → top_changed_cols diffs n = []) ∧
    ((top_changed_cols diffs n).map (fun p => p.2)).sum ≤ diffs.length := by
  by_cases h : diffs.isEmpty
  · obtain rfl := List.isEmpty_iff.mp h
    simp [top_changed_cols]
  · unfold top_changed_cols
    rw [if_neg h]
    obtain ⟨h1, h2, h3⟩ := ranked_take_spec (diffs.map DiffRec.col) n
    refine ⟨h1, h2, ?_, ?_⟩
    · intro hemp
      exact absurd (List.isEmpty_iff.mpr hemp) h
    · rwa [List.length_map] at h3

/-! ## Concrete fixtures -/

/-- Workbook A of the end-to-end example: sheet `Rota` with `B2 = "Alice"`
and a second sheet `Notes`. -/
def wbRotaA : Workbook :=
  [⟨"Rota", [[.vstr "h1", .vstr "h2"], [.vstr "x", .vstr "Alice"]]⟩, ⟨"Notes", [[.vstr "n"]]⟩]

/-- Workbook B of the end-to-end example: sheet `Rota` with `B2 = "Bob"` and
a second sheet `Audit`. -/
def wbRotaB : Workbook :=
  [⟨"Rota", [[.vstr "h1", .vstr "h2"], [.vstr "x", .vstr "Bob"]]⟩, ⟨"Audit", [[.vstr "a"]]⟩]

/-- A one-cell workbook holding `1`. -/
def wbOneA : Workbook := [⟨"S", [[.vint 1]]⟩]

/-- A one-cell workbook holding `2`. -/
def wbOneB : Workbook := [⟨"S", [[.vint 2]]⟩]

/-- A two-row workbook whose rows hold `1` and `1`. -/
def wbCapA : Workbook := [⟨"S", [[.vint 1], [.vint 1]]⟩]

/-- A two-row workbook whose rows hold `1` and `2`: it differs from `wbCapA`
only in row 2. -/
def wbCapB : Workbook := [⟨"S", [[.vint 1], [.vint 2]]⟩]

/-- A two-row workbook whose rows hold `3` and `2`: it differs from `wbCapA`
in both rows. -/
def wbTwoB : Workbook := [⟨"S", [[.vint 3], [.vint 2]]⟩]

/-! ## The claims -/

/-- C1: whenever `diff_sheet` returns fewer records than the cap (so no
truncation occurred), a coordinate with `1 ≤ row ≤ max(maxRowA, maxRowB)`
and `1 ≤ col ≤ max(maxColA, maxColB)` appears among the returned records if
and only if the normalized values of workbook A's and workbook B's cells
there differ — coordinates outside either populated range read as absent and
normalize to the empty string rather than erroring. -/
theorem C1_diff_sheet_mem_iff (A B : Workbook) (s : String) (cap : ℤ) (r c : ℕ)
    (hA : s ∈ sheetnames A) (hB : s ∈ sheetnames B)
    (hlen : ((diff_sheet A B s cap).length : ℤ) < cap)
    (hr1 : 1 ≤ r) (hr2 : r ≤ scanMaxRow A B s)
    (hc1 : 1 ≤ c) (hc2 : c ≤ scanMaxCol A B s) :
    (∃ d ∈ diff_sheet A B s cap, d.row = r ∧ d.col = c)
      ↔ _norm (cellVal (getSheet A s) r c) ≠ _norm (cellVal (getSheet B s) r c) := by
  rw [diff_sheet_no_trunc A B s cap hlen]
  unfold diff_sheet_full
  rw [if_neg (by simp [hA, hB])]
  exact mem_allDiffs_iff _ _ _ _ r c hr1 hr2 hc1 hc2

/-- C1 witness: the coordinate `(2, 2)` of the concrete `Rota` example,
where workbook A holds `"Alice"` and workbook B holds `"Bob"`. -/
theorem C1_witness :
    (∃ d ∈ diff_sheet wbRotaA wbRotaB "Rota" 5000, d.row = 2 ∧ d.col = 2)
      ↔ _norm (cellVal (getSheet wbRotaA "Rota") 2 2)
          ≠ _norm (cellVal (getSheet wbRotaB "Rota") 2 2) :=
  C1_diff_sheet_mem_iff wbRotaA wbRotaB "Rota" 5000 2 2 (by decide) (by decide)
    (by decide) (by decide) (by decide) (by decide) (by decide)

/-- C2 counterexample: the claim quantifies over every integer cap; at cap
`0` with one true difference (so `true count > cap`), it demands exactly `0`
returned records, but the scan appends the row-1 discrepancy before checking
the cap and returns one record. -/
theorem C2_counterexample :
    0 < ((diff_sheet_full wbOneA wbOneB "S").length : ℤ) ∧
    ((diff_sheet wbOneA wbOneB "S" 0).length : ℤ) ≠ 0 :=
  ⟨by decide, by decide⟩

/-- C2 (amended): for every cap `k ≥ 1`, `diff_sheet` returns exactly the
first `min(k, total)` records of the row-major difference list — so the
records are listed in row-major scan order, and when the true difference
count exceeds `k` the result has exactly `k` records, the first `k`
discrepancies in scan order.  For `k ≤ 0` the claim fails (see the
counterexample): the append precedes the cap check. -/
theorem C2_diff_sheet_cap (A B : Workbook) (s : String) (k : ℤ) (hk : 1 ≤ k) :
    diff_sheet A B s k = (diff_sheet_full A B s).take k.toNat ∧
    (k < ((diff_sheet_full A B s).length : ℤ)
      → ((diff_sheet A B s k).length : ℤ) = k) := by
  refine ⟨diff_sheet_eq_take A B s k hk, ?_⟩
  intro hgt
  rw [diff_sheet_eq_take A B s k hk, List.length_take]
  omega

/-- C2 witness: cap `1` where the true difference count is `2`, so the
truncation clause is exercised. -/
theorem C2_witness :
    diff_sheet wbCapA wbTwoB "S" 1 = (diff_sheet_full wbCapA wbTwoB "S").take (1 : ℤ).toNat ∧
    ((1 : ℤ) < ((diff_sheet_full wbCapA wbTwoB "S").length : ℤ)
      → ((diff_sheet wbCapA wbTwoB "S" 1).length : ℤ) = 1) :=
  C2_diff_sheet_cap wbCapA wbTwoB "S" 1 (by decide)

/-- C3: `_norm` maps every cell value by exactly the spec's rule set
(`normalize_spec`), and in particular `1.0` and `1` both normalize to `"1"`,
`2.00000000001` normalizes like `2` (within the `1e-9` tolerance), and `2.1`
normalizes differently from `2`. -/
theorem C3_norm_rules :
    (∀ v : CellVal, _norm v = normalize_spec v) ∧
    _norm (.vfloat 1) = "1" ∧ _norm (.vint 1) = "1" ∧
    _norm (.vfloat (2 + 1 / 100000000000)) = _norm (.vint 2) ∧
    _norm (.vfloat (21 / 10)) ≠ _norm (.vint 2) := by
  refine ⟨?_, ?_, ?_, ?_, ?_⟩
  · intro v
    cases v with
    | vnone => rfl
    | vint i =>
      simp only [_norm, normalize_spec, pyStr]
      exact intStr_stripped i
    | vfloat q => rfl
    | vbool b => rfl
    | vstr s => rfl
    | vdate y mo d h mi s => rfl
  · exact of_decide_eq_true (by with_unfolding_all rfl)
  · exact of_decide_eq_true (by with_unfolding_all rfl)
  · exact of_decide_eq_true (by with_unfolding_all rfl)
  · exact of_decide_eq_true (by with_unfolding_all rfl)

/-- C4 counterexample: two tied groups, first encountered as row `5` and
then row `3`.  The claim's tie-break (first-encountered input order)
predicts `[(5, 1), (3, 1)]`, but the grouping step orders groups by key
ascending, so the code returns `[(3, 1), (5, 1)]`. -/
theorem C4_counterexample :
    top_changed_rows [⟨"A5", 5, 1, "x", "y"⟩, ⟨"A3", 3, 1, "x", "y"⟩] 25 = [(3, 1), (5, 1)] ∧
    ([(3, 1), (5, 1)] : List (ℕ × ℕ)) ≠ [(5, 1), (3, 1)] :=
  ⟨by decide, by decide⟩

/-- C4 (amended): `top_changed_rows` and `top_changed_cols` return at most
`n` pairs, sorted by count descending with ties in ascending index order —
the order the grouping step produces, which sorts group keys ascending
rather than keeping first-encountered input order — an empty correctly-typed
table when there are no differences, and the returned counts sum to at most
the total record count. -/
theorem C4_top_changed (diffs : List DiffRec) (n : ℕ) :
    ((top_changed_rows diffs n).length ≤ n ∧
     (top_changed_rows diffs n).Pairwise countKeyOrder ∧
     (diffs = [] → top_changed_rows diffs n = []) ∧
     ((top_changed_rows diffs n).map (fun p => p.2)).sum ≤ diffs.length) ∧
    ((top_changed_cols diffs n).length ≤ n ∧
     (top_changed_cols diffs n).Pairwise countKeyOrder ∧
     (diffs = [] → top_changed_cols diffs n = []) ∧
     ((top_changed_cols diffs n).map (fun p => p.2)).sum ≤ diffs.length) :=
  ⟨top_changed_rows_spec diffs n, top_changed_cols_spec diffs n⟩

/-- C5: `common_sheets` returns exactly the names present in both workbooks,
in workbook A's order (a sublist of A's sheet-name list); a one-sided name
is silently excluded; a disjoint pair yields the empty list; and the
concrete `{"Rota","Notes"}` vs `{"Rota","Audit"}` example returns exactly
`["Rota"]`. -/
theorem C5_common_sheets (A B : Workbook) :
    (∀ s, s ∈ common_sheets A B ↔ s ∈ sheetnames A ∧ s ∈ sheetnames B) ∧
    (common_sheets A B).Sublist (sheetnames A) ∧
    ((∀ s ∈ sheetnames A, s ∉ sheetnames B) → common_sheets A B = []) ∧
    common_sheets [⟨"Rota", []⟩, ⟨"Notes", []⟩] [⟨"Rota", []⟩, ⟨"Audit", []⟩] = ["Rota"] := by
  refine ⟨?_, List.filter_sublist _, ?_, by decide⟩
  · intro s
    unfold common_sheets
    rw [List.mem_filter]
    constructor
    · rintro ⟨h1, h2⟩
      exact ⟨h1, List.elem_iff.mp h2⟩
    · rintro ⟨h1, h2⟩
      exact ⟨h1, List.elem_iff.mpr h2⟩
  · intro h
    unfold common_sheets
    rw [List.filter_eq_nil_iff]
    intro s hs hc
    exact h s hs (List.elem_iff.mp hc)

/-- C6: `diff_summary` reports the total record count, the distinct-`Row`
count and the distinct-`Col` count, all three zero on an empty input, and
each distinct count never exceeds the record count. -/
theorem C6_diff_summary (diffs : List DiffRec) :
    (diff_summary diffs).changed_cells = diffs.length ∧
    (diff_summary diffs).changed_rows = (diffs.map DiffRec.row).dedup.length ∧
    (diff_summary diffs).changed_cols = (diffs.map DiffRec.col).dedup.length ∧
    (diffs = [] → diff_summary diffs = ⟨0, 0, 0⟩) ∧
    (diff_summary diffs).changed_rows ≤ (diff_summary diffs).changed_cells ∧
    (diff_summary diffs).changed_cols ≤ (diff_summary diffs).changed_cells := by
  by_cases h : diffs.isEmpty
  · obtain rfl := List.isEmpty_iff.mp h
    refine ⟨rfl, rfl, rfl, fun _ => rfl, le_refl _, le_refl _⟩
  · unfold diff_summary
    rw [if_neg h]
    have hr : (diffs.map DiffRec.row).dedup.length ≤ diffs.length := by
      calc (diffs.map DiffRec.row).dedup.length
          ≤ (diffs.map DiffRec.row).length := (List.dedup_sublist _).length_le
        _ = diffs.length := List.length_map _ _
    have hc : (diffs.map DiffRec.col).dedup.length ≤ diffs.length := by
      calc (diffs.map DiffRec.col).dedup.length
          ≤ (diffs.map DiffRec.col).length := (List.dedup_sublist _).length_le
        _ = diffs.length := List.length_map _ _
    exact ⟨rfl, rfl, rfl,
      fun hemp => absurd (List.isEmpty_iff.mpr hemp) h, hr, hc⟩

/-- C7: swapping the two input workbooks yields the same difference records
over the same coordinates in the same order, with the `A` and `B` payloads
of each record swapped. -/
theorem C7_diff_sheet_swap (A B : Workbook) (s : String) (cap : ℤ) :
    diff_sheet B A s cap = (diff_sheet A B s cap).map swapRec := by
  unfold diff_sheet
  by_cases h : s ∉ sheetnames A ∨ s ∉ sheetnames B
  · rw [if_pos h.symm, if_pos h]
    rfl
  · rw [if_neg (fun hx => h hx.symm), if_neg h]
    rw [scanMaxCol_comm, scanMaxRow_comm]
    have := scanRows_swap (getSheet A s) (getSheet B s) (scanMaxCol A B s) cap
      (List.range' 1 (scanMaxRow A B s)) []
    simpa using this

/-- C8: a sheet name missing from either workbook gives the empty,
correctly-typed table rather than an error, and an empty difference list
gives all-zero summary counts and empty hotspot tables. -/
theorem C8_missing_sheet (A B : Workbook) (s : String) (cap : ℤ) (n : ℕ)
    (h : ¬(s ∈ sheetnames A ∧ s ∈ sheetnames B)) :
    diff_sheet A B s cap = [] ∧
    diff_summary (diff_sheet A B s cap) = ⟨0, 0, 0⟩ ∧
    top_changed_rows (diff_sheet A B s cap) n = [] ∧
    top_changed_cols (diff_sheet A B s cap) n = [] := by
  have hempty : diff_sheet A B s cap = [] := by
    unfold diff_sheet
    rw [if_pos (by tauto)]
  rw [hempty]
  exact ⟨rfl, rfl, rfl, rfl⟩

/-- C8 witness: `"Notes"` names a sheet of workbook A only. -/
theorem C8_witness :
    diff_sheet wbRotaA wbRotaB "Notes" 5000 = [] ∧
    diff_summary (diff_sheet wbRotaA wbRotaB "Notes" 5000) = ⟨0, 0, 0⟩ ∧
    top_changed_rows (diff_sheet wbRotaA wbRotaB "Notes" 5000) 25 = [] ∧
    top_changed_cols (diff_sheet wbRotaA wbRotaB "Notes" 5000) 25 = [] :=
  C8_missing_sheet wbRotaA wbRotaB "Notes" 5000 25 (by decide)

/-- C9: normalization is idempotent on its own outputs — normalizing the
canonical string `_norm v` returns it unchanged. -/
theorem C9_norm_idem (v : CellVal) : _norm (.vstr (_norm v)) = _norm v :=
  norm_stripped v

/-- C10 counterexample: cap `0` on workbooks whose first rows agree and
whose only discrepancy is in row 2 — the outer loop's cap check fires at the
end of row 1 with nothing appended, so the result is empty even though a
coordinate in the scan range differs (the claim demands exactly one
record). -/
theorem C10_counterexample :
    diff_sheet wbCapA wbCapB "S" 0 = [] ∧ diff_sheet_full wbCapA wbCapB "S" ≠ [] :=
  ⟨by decide, by decide⟩

/-- C10 (amended): for `max_changes ≤ 0` the scan aborts at the first
row-end check, so the result is the first discrepancy of row 1 when row 1
holds one and is empty otherwise — a discrepancy first occurring in a later
row is not reported; and for every cap the result never holds more than
`max(max_changes, 1)` records. -/
theorem C10_nonpos_cap (A B : Workbook) (s : String) (k : ℤ) (hk : k ≤ 0)
    (hA : s ∈ sheetnames A) (hB : s ∈ sheetnames B) :
    diff_sheet A B s k
      = (rowDiffs (getSheet A s) (getSheet B s) 1 (scanMaxCol A B s)).take 1 ∧
    ∀ k' : ℤ, ((diff_sheet A B s k').length : ℤ) ≤ max k' 1 := by
  constructor
  · unfold diff_sheet
    rw [if_neg (by simp [hA, hB])]
    obtain ⟨m, hm⟩ : ∃ m, scanMaxRow A B s = m + 1 :=
      ⟨scanMaxRow A B s - 1, by have := scanMaxRow_pos A B s; omega⟩
    rw [hm, List.range'_succ]
    exact scanRows_nonpos _ _ _ _ hk 1 _
  · intro k'
    exact diff_sheet_length_le_aux A B s k'

/-- C10 witness: cap `0` on the two-row fixture — row 1 agrees, so the
result is empty, matching the first discrepancy list of row 1. -/
theorem C10_witness :
    diff_sheet wbCapA wbCapB "S" 0
      = (rowDiffs (getSheet wbCapA "S") (getSheet wbCapB "S") 1 (scanMaxCol wbCapA wbCapB "S")).take 1 ∧
    ∀ k' : ℤ, ((diff_sheet wbCapA wbCapB "S" k').length : ℤ) ≤ max k' 1 :=
  C10_nonpos_cap wbCapA wbCapB "S" 0 (by decide) (by decide) (by decide)
